import Mathlib

set_option maxHeartbeats 1000000

open scoped Classical

/-! # Verification of the qvm quantum virtual machine core

Shallow embedding of the state-vector engine, qubit registry, measurement
engine, classical ALU and QBC codec of the qvm repository, with theorems
checking the specification claims against it.

JavaScript numerics are modelled exactly up to IEEE-754 rounding: a JS
number is `Option ℝ` (`none` is NaN) and a ComplexNumber is
`Option (ℝ × ℝ)` (`none` is a value whose components are NaN).  Rounding
of doubles is outside the model; NaN creation and propagation is inside
it, because the engine's renormalisation paths call
`ComplexNumber.divide` with a plain number, whose `.real`/`.imag` are
undefined, so the quotient components are NaN. -/

/-- A finite complex value: an ordered pair (real, imag) of reals. -/
abbrev Cpx : Type := ℝ × ℝ

/-- A ComplexNumber as it flows through the engine; `none` marks NaN components. -/
abbrev Cx : Type := Option Cpx

/-- A JS number; `none` is NaN. -/
abbrev JsReal : Type := Option ℝ

/-- Addition of finite complex pairs. -/
def caddP (x y : Cpx) : Cpx := (x.1 + y.1, x.2 + y.2)

/-- Multiplication of finite complex pairs. -/
def cmulP (x y : Cpx) : Cpx :=
  (x.1 * y.1 - x.2 * y.2, x.1 * y.2 + x.2 * y.1)

/-- Complex conjugation of a finite pair. -/
def conjP (x : Cpx) : Cpx := (x.1, -x.2)

/-- ComplexNumber.add of complex-math.js; NaN propagates. -/
def cadd : Cx → Cx → Cx
  | some x, some y => some (caddP x y)
  | _, _ => none

/-- ComplexNumber.multiply of complex-math.js; NaN propagates. -/
def cmul : Cx → Cx → Cx
  | some x, some y => some (cmulP x y)
  | _, _ => none

/-- ComplexNumber.magnitudeSquared of complex-math.js. -/
def magSq : Cx → JsReal
  | some x => some (x.1 * x.1 + x.2 * x.2)
  | none => none

/-- JS addition of numbers; NaN propagates. -/
def jsAdd : JsReal → JsReal → JsReal
  | some a, some b => some (a + b)
  | _, _ => none

/-- Math.sqrt: NaN on NaN or negative input. -/
noncomputable def jsSqrt : JsReal → JsReal
  | some a => if a < 0 then none else some (Real.sqrt a)
  | none => none

/-- The JS comparison x < y where y may be NaN; a comparison with NaN is false. -/
def jsLtN (x : ℝ) : JsReal → Prop
  | some p => x < p
  | none => False

/-- ComplexNumber.isZero with its default epsilon 1e-10; false on NaN components. -/
def cIsZero : Cx → Prop
  | some x => |x.1| < 1e-10 ∧ |x.2| < 1e-10
  | none => False

/-- The dense state vector: qubit count, the configured maxQubits option, and the
amplitude array as a function (meaningful on indices below 2 ^ n). -/
structure QState where
  n : ℕ
  maxQ : ℕ
  amp : ℕ → Cx

/-- Sum of amplitude.magnitudeSquared() over the vector, accumulated left to right
like the source loops; NaN propagates. -/
def normSquared (s : QState) : JsReal :=
  (List.range (2 ^ s.n)).foldl (fun acc i => jsAdd acc (magSq (s.amp i))) (some 0)

/-- StateVector.normalize: compute norm = Math.sqrt of the squared-magnitude sum;
when |norm − 1| > ε divide every amplitude by the plain number norm.
ComplexNumber.divide reads other.real and other.imag, which are undefined on a
number, so the denominator is NaN, the division-by-zero guard does not fire, and
every divided amplitude gets NaN components.  A NaN norm makes the comparison
false and leaves the vector untouched. -/
noncomputable def svNormalize (eps : ℝ) (s : QState) : QState :=
  match jsSqrt (normSquared s) with
  | none => s
  | some norm => if eps < |norm - 1| then { s with amp := fun _ => none } else s

/-- A 2×2 gate matrix of finite complex entries (shape validation is carried by
the type). -/
structure Mat2 where
  u00 : Cpx
  u01 : Cpx
  u10 : Cpx
  u11 : Cpx

/-- The vector built by the applySingleQubitGate loop of state-vector.js.
Position i receives U00·a(i) then U01·a(i xor 2^k) when bit k of i is 0, and
U10·a(i xor 2^k) then U11·a(i) when it is 1, each starting from the fresh zero
amplitude; this is the loop's accumulation collected per output index, exact
because each output receives exactly these two contributions. -/
def singleGateAmp (k : ℕ) (U : Mat2) (a : ℕ → Cx) : ℕ → Cx := fun i =>
  if i.testBit k then
    cadd (cadd (some (0, 0)) (cmul (a (i ^^^ (1 <<< k))) (some U.u10)))
      (cmul (a i) (some U.u11))
  else
    cadd (cadd (some (0, 0)) (cmul (a i) (some U.u00)))
      (cmul (a (i ^^^ (1 <<< k))) (some U.u01))

/-- StateVector.applySingleQubitGate: validate the index, build the transformed
vector, then normalize it. -/
noncomputable def applySingleQubitGateE (eps : ℝ) (k : ℕ) (U : Mat2) (s : QState) :
    Except String QState :=
  if k < s.n then
    .ok (svNormalize eps { s with amp := singleGateAmp k U s.amp })
  else
    .error "Qubit index out of bounds"

/-- (i >> k) & 1 as a number. -/
def bitVal (i k : ℕ) : ℕ := if i.testBit k then 1 else 0

/-- newIndex &= ~(1 << k): clear bit k of the index. -/
def clearBit (k i : ℕ) : ℕ := if i.testBit k then i - (1 <<< k) else i

/-- The index agreeing with i outside bits c and t and carrying (cb, tb) on them:
the applyTwoQubitGate loop clears both bits and ORs the new ones in. -/
def withBits (c t : ℕ) (cb tb : ℕ) (i : ℕ) : ℕ :=
  clearBit t (clearBit c i) ||| (cb <<< c) ||| (tb <<< t)

/-- basisIndex = (controlBit << 1) | targetBit. -/
def basisIdx (c t i : ℕ) : ℕ := ((bitVal i c) <<< 1) ||| bitVal i t

/-- The vector built by the applyTwoQubitGate double loop of state-vector.js,
collected per output index r: the source adds a(i)·M(j, basisIdx i) into output
index withBits c t j i, so output r gathers, over the four source patterns b,
the contribution a(withBits c t b r)·M(basisIdx r, b); Cx addition is commutative
and associative with absorbing NaN, so collecting the accumulation this way is
exact. -/
def twoGateAmp (c t : ℕ) (M : ℕ → ℕ → Cpx) (a : ℕ → Cx) : ℕ → Cx := fun r =>
  cadd (cadd (cadd (cadd (some (0, 0))
    (cmul (a (withBits c t 0 0 r)) (some (M (basisIdx c t r) 0))))
    (cmul (a (withBits c t 0 1 r)) (some (M (basisIdx c t r) 1))))
    (cmul (a (withBits c t 1 0 r)) (some (M (basisIdx c t r) 2))))
    (cmul (a (withBits c t 1 1 r)) (some (M (basisIdx c t r) 3)))

/-- StateVector.applyTwoQubitGate: validate the indices and the control ≠ target
requirement, build the transformed vector, then normalize it. -/
noncomputable def applyTwoQubitGateE (eps : ℝ) (c t : ℕ) (M : ℕ → ℕ → Cpx)
    (s : QState) : Except String QState :=
  if c < s.n then
    if t < s.n then
      if c = t then .error "Control and target qubits must be different"
      else .ok (svNormalize eps { s with amp := twoGateAmp c t M s.amp })
    else .error "Qubit index out of bounds"
  else .error "Qubit index out of bounds"

/-- StateVector.applyCNOT fast path: an index with bit c set receives the amplitude
of its target-flipped partner, others keep theirs; no normalization step. -/
def applyCNOTE (c t : ℕ) (s : QState) : Except String QState :=
  if c < s.n then
    if t < s.n then
      if c = t then .error "Control and target qubits must be different"
      else .ok { s with
        amp := fun r => if r.testBit c then s.amp (r ^^^ (1 <<< t)) else s.amp r }
    else .error "Qubit index out of bounds"
  else .error "Qubit index out of bounds"

/-- The 4×4 CNOT matrix of quantum-gates.js, basis order 00, 01, 10, 11 with the
control as high bit: rows 0 and 1 are identity, rows 2 and 3 are exchanged. -/
def cnotMat : ℕ → ℕ → Cpx := fun j b =>
  if (j = 0 ∧ b = 0) ∨ (j = 1 ∧ b = 1) ∨ (j = 2 ∧ b = 3) ∨ (j = 3 ∧ b = 2) then
    (1, 0)
  else (0, 0)

/-- Σ |a_i|² over indices whose bit k equals v, accumulated like the measurement
loop of state-vector.js. -/
def probBit (k v : ℕ) (s : QState) : JsReal :=
  (List.range (2 ^ s.n)).foldl
    (fun acc i => if bitVal i k = v then jsAdd acc (magSq (s.amp i)) else acc)
    (some 0)

/-- StateVector.measureQubit with the uniform draw u made explicit.  The outcome is
0 iff u < p0 (false when p0 is NaN).  Collapse: amplitudes on the non-selected
half are the freshly created zeros; a surviving amplitude failing isZero is
divided by the plain number √p — the scalar-divide slip of
ComplexNumber.divide — and so gets NaN components, while a surviving amplitude
passing isZero is left as it is. -/
noncomputable def svMeasure (k : ℕ) (u : ℝ) (s : QState) : ℕ × QState :=
  let outcome : ℕ := if jsLtN u (probBit k 0 s) then 0 else 1
  (outcome,
    { s with
        amp := fun i =>
          if bitVal i k = outcome then
            (if cIsZero (s.amp i) then s.amp i else none)
          else some (0, 0) })

/-- StateVector.measureQubit with its index validation. -/
noncomputable def svMeasureE (k : ℕ) (u : ℝ) (s : QState) :
    Except String (ℕ × QState) :=
  if k < s.n then .ok (svMeasure k u s) else .error "Qubit index out of bounds"

/-- StateVector.expandStateVector: refuse growing beyond maxQubits, otherwise
double the vector, copying the lower half and zeroing the upper half. -/
def expandE (s : QState) : Except String QState :=
  if 2 ^ (s.n + 1) > 2 ^ s.maxQ then
    .error "Cannot expand state vector beyond maxQubits qubits"
  else
    .ok { s with
            n := s.n + 1,
            amp := fun i => if i < 2 ^ s.n then s.amp i else some (0, 0) }

/-- A JS Map key as used around the qubit registry: the registry keys its maps by
uuid strings, while the buggy measureAllQubits comparator passes array positions
(numbers).  SameValueZero never equates a number with a string. -/
inductive JsKey
  | num (n : ℕ)
  | str (s : String)
deriving DecidableEq

/-- Map.get on an insertion-ordered association list. -/
def lookupKey (l : List (JsKey × ℕ)) (k : JsKey) : Option ℕ :=
  match l with
  | [] => none
  | p :: rest => if p.1 = k then some p.2 else lookupKey rest k

/-- Map.set: overwrite in place, or append a new binding. -/
def mapSet (l : List (JsKey × ℕ)) (k : JsKey) (v : ℕ) : List (JsKey × ℕ) :=
  match l with
  | [] => [(k, v)]
  | p :: rest => if p.1 = k then (k, v) :: rest else p :: mapSet rest k v

/-- The VM state the registry, measurement engine and gate executor share:
the registry's handle map (insertion-ordered), its monotone position counter and
capacity, the state vector, the entanglement groups (as member lists), and the
measurement engine's result store, history and metrics.  History timestamps
(Date.now()) are outside the embedding and omitted. -/
structure VmState where
  qubits : List (JsKey × ℕ)
  nextQubitIndex : ℕ
  maxQubits : ℕ
  groups : List (JsKey × List JsKey)
  sv : QState
  results : List (JsKey × ℕ)
  history : List (JsKey × ℕ)
  totalMeasurements : ℕ
  count0 : ℕ
  count1 : ℕ

/-- QubitRegistry.getQubitIndex: look the handle up, or throw. -/
def getQubitIndexE (st : VmState) (k : JsKey) : Except String ℕ :=
  match lookupKey st.qubits k with
  | some i => .ok i
  | none => .error "Qubit not found"

/-- QubitRegistry.allocateQubit with the fresh uuid supplied explicitly.  The
capacity check comes first; past it, the handle is inserted into the registry map
and the position counter bumped before the state vector is asked to expand, so an
expansion failure propagates with those registry mutations kept.  JavaScript
exceptions do not roll state back, so every operation returns its result next to
the state it leaves behind. -/
def allocateQubit (uuid : String) (st : VmState) :
    Except String String × VmState :=
  if st.qubits.length ≥ st.maxQubits then
    (.error ("Cannot allocate more than " ++ toString st.maxQubits ++ " qubits"), st)
  else
    let qid := JsKey.str uuid
    let st1 := { st with
                   qubits := mapSet st.qubits qid st.nextQubitIndex,
                   nextQubitIndex := st.nextQubitIndex + 1 }
    match expandE st1.sv with
    | .error e => (.error e, st1)
    | .ok sv2 =>
        (.ok uuid, { st1 with sv := sv2, groups := st1.groups ++ [(qid, [qid])] })

/-- QubitRegistry.allocateQubits: count must be positive; allocate one by one,
an exception stopping the loop with earlier allocations kept. -/
def allocateQubitsGo (uuids : List String) (st : VmState) :
    Except String (List String) × VmState :=
  match uuids with
  | [] => (.ok [], st)
  | u :: rest =>
      match allocateQubit u st with
      | (.error e, st2) => (.error e, st2)
      | (.ok id1, st2) =>
          match allocateQubitsGo rest st2 with
          | (.error e, st3) => (.error e, st3)
          | (.ok ids, st3) => (.ok (id1 :: ids), st3)

/-- QubitRegistry.allocateQubits with the count explicit (the uuid list carries
one fresh name per allocation). -/
def allocateQubits (uuids : List String) (st : VmState) :
    Except String (List String) × VmState :=
  if uuids.length = 0 then
    (.error "Must allocate a positive number of qubits", st)
  else allocateQubitsGo uuids st

/-- MeasurementEngine.getProbability, the marginal sum over basis states whose
bit equals the outcome; accumulated like the source loop, NaN propagating. -/
def engProb (idx v : ℕ) (s : QState) : JsReal :=
  (List.range (2 ^ s.n)).foldl
    (fun acc i => if bitVal i idx = v then jsAdd acc (magSq (s.amp i)) else acc)
    (some 0)

/-- MeasurementEngine.measureQubit with the uniform draw explicit.  The
non-collapsing path computes the marginals and samples without touching any
store; the collapsing path delegates to StateVector.measureQubit and records the
outcome in the result store, the history and the metrics. -/
noncomputable def engMeasureQubit (nonCollapsing : Bool) (qid : JsKey) (u : ℝ)
    (st : VmState) : Except String ℕ × VmState :=
  match lookupKey st.qubits qid with
  | none => (.error "Qubit not found", st)
  | some idx =>
      if nonCollapsing then
        (.ok (if jsLtN u (engProb idx 0 st.sv) then 0 else 1), st)
      else
        let r := svMeasure idx u st.sv
        (.ok r.1,
          { st with
              sv := r.2,
              results := mapSet st.results qid r.1,
              history := st.history ++ [(qid, r.1)],
              totalMeasurements := st.totalMeasurements + 1,
              count0 := if r.1 = 0 then st.count0 + 1 else st.count0,
              count1 := if r.1 = 1 then st.count1 + 1 else st.count1 })

/-- MeasurementEngine.measureQubits: measure in order, collecting a result map in
insertion order; the draws come from the sequential random stream us starting at
position j. -/
noncomputable def engMeasureQubits (nonCollapsing : Bool) (ids : List JsKey)
    (us : ℕ → ℝ) (j : ℕ) (st : VmState) :
    Except String (List (JsKey × ℕ)) × VmState :=
  match ids with
  | [] => (.ok [], st)
  | qid :: rest =>
      match engMeasureQubit nonCollapsing qid (us j) st with
      | (.error e, st2) => (.error e, st2)
      | (.ok r, st2) =>
          match engMeasureQubits nonCollapsing rest us (j + 1) st2 with
          | (.error e, st3) => (.error e, st3)
          | (.ok ms, st3) => (.ok ((qid, r) :: ms), st3)

/-- The comparator measureAllQubits passes to Array#sort: it receives the pairs
produced by qubitIds.entries(), so a.1 is an array position (a number), and it
calls getQubitIndex on that position instead of on the handle. -/
def maqComparator (st : VmState) (a b : ℕ × JsKey) : Except String Int := do
  let ia ← getQubitIndexE st (JsKey.num a.1)
  let ib ← getQubitIndexE st (JsKey.num b.1)
  pure ((ia : Int) - (ib : Int))

/-- Insertion step of a comparison sort with an effectful comparator: the first
comparator call that throws aborts the sort. -/
def insertSortedM (cmp : ℕ × JsKey → ℕ × JsKey → Except String Int)
    (x : ℕ × JsKey) : List (ℕ × JsKey) → Except String (List (ℕ × JsKey))
  | [] => .ok [x]
  | y :: ys => do
      let c ← cmp x y
      if c ≤ 0 then
        pure (x :: y :: ys)
      else
        (insertSortedM cmp x ys).map (fun zs => y :: zs)

/-- Array#sort with an effectful comparator, as an insertion sort: on one or no
elements the comparator is never consulted, on two or more its first call decides
whether the sort throws. -/
def sortPairsM (cmp : ℕ × JsKey → ℕ × JsKey → Except String Int) :
    List (ℕ × JsKey) → Except String (List (ℕ × JsKey))
  | [] => .ok []
  | x :: xs => do
      let rest ← sortPairsM cmp xs
      insertSortedM cmp x rest

/-- The bit-string loop of measureAllQubits: each sorted pair is destructured as
[qubitId], which takes its FIRST component — the array position, a number — and
that number is looked up in the measurement map keyed by handles, so the lookup
misses and .toString() is called on undefined. -/
def maqBitString (ms : List (JsKey × ℕ)) :
    List (ℕ × JsKey) → Except String String
  | [] => .ok ""
  | p :: rest =>
      match lookupKey ms (JsKey.num p.1) with
      | none => .error "TypeError: Cannot read properties of undefined"
      | some r => (maqBitString ms rest).map (fun str => toString r ++ str)

/-- MeasurementEngine.measureAllQubits: measure every live handle, then sort the
entries() pairs with the position-based comparator and append the outcomes. -/
noncomputable def engMeasureAllQubits (us : ℕ → ℝ) (st : VmState) :
    Except String String × VmState :=
  let ids := st.qubits.map Prod.fst
  match engMeasureQubits false ids us 0 st with
  | (.error e, st2) => (.error e, st2)
  | (.ok ms, st2) =>
      match sortPairsM (maqComparator st2) ids.enum with
      | .error e => (.error e, st2)
      | .ok sorted =>
          match maqBitString ms sorted with
          | .error e => (.error e, st2)
          | .ok bits => (.ok bits, st2)

/-- Classical-memory read (Map.get): address to stored integer. -/
def memGet (l : List (ℕ × Int)) (a : ℕ) : Option Int :=
  match l with
  | [] => none
  | p :: rest => if p.1 = a then some p.2 else memGet rest a

/-- Classical-memory write (Map.set): overwrite or append. -/
def memSet (l : List (ℕ × Int)) (a : ℕ) (v : Int) : List (ℕ × Int) :=
  match l with
  | [] => [(a, v)]
  | p :: rest => if p.1 = a then (a, v) :: rest else p :: memSet rest a v

/-- The arithmetic operations of executeClassicalOperation; its bitwise branches
(AND, OR, XOR, NOT) and the comparison dispatch are not needed by the claims and
are left out of the embedding. -/
inductive AluOp
  | ADD
  | SUB
  | MUL
  | DIV

/-- BytecodeInterpreter.executeClassicalOperation on already-fetched operand
addresses: unset operands throw; DIV by zero throws; DIV otherwise stores
Math.floor(a / b) — the floor of the real quotient, which on integers is the
quotient rounded toward negative infinity (Int.fdiv). -/
def execClassicalOp (op : AluOp) (aAddr bAddr rAddr : ℕ) (mem : List (ℕ × Int)) :
    Except String (List (ℕ × Int)) :=
  match memGet mem aAddr, memGet mem bAddr with
  | some a, some b =>
      match op with
      | .ADD => .ok (memSet mem rAddr (a + b))
      | .SUB => .ok (memSet mem rAddr (a - b))
      | .MUL => .ok (memSet mem rAddr (a * b))
      | .DIV =>
          if b = 0 then .error "Division by zero"
          else .ok (memSet mem rAddr (Int.fdiv a b))
  | _, _ => .error "Operand values not set"

/-- The numeric values of the QBCOpcode enum from src/types/quantum-types.js, in
source order: ALLOCATE_QUBIT, DEALLOCATE_QUBIT, GATE_X, GATE_Y, GATE_Z, GATE_H,
GATE_S, GATE_T, GATE_RX, GATE_RY, GATE_RZ, GATE_PHASE, GATE_CNOT, GATE_CZ,
GATE_SWAP, GATE_ISWAP, GATE_TOFFOLI, GATE_FREDKIN, MEASURE_QUBIT, MEASURE_ALL,
CONDITIONAL_JUMP, JUMP, STORE_CLASSICAL, LOAD_CLASSICAL, ADD_CLASSICAL,
SUB_CLASSICAL, MUL_CLASSICAL, DIV_CLASSICAL, AND_CLASSICAL, OR_CLASSICAL,
XOR_CLASSICAL, NOT_CLASSICAL, CMP_EQ_CLASSICAL, CMP_NEQ_CLASSICAL,
CMP_LT_CLASSICAL, CMP_GT_CLASSICAL, END. -/
def qbcOpcodeValues : List ℕ :=
  [0x01, 0x02, 0x10, 0x11, 0x12, 0x13, 0x14, 0x15,
   0x20, 0x21, 0x22, 0x23, 0x30, 0x31, 0x32, 0x33, 0x40, 0x41, 0x50, 0x51,
   0x60, 0x61, 0x70, 0x71, 0x80, 0x81, 0x82, 0x83, 0x90, 0x91, 0x92, 0x93,
   0xA0, 0xA1, 0xA2, 0xA3, 0xFF]

/-- A QBC instruction object: opcode and parameter list, as in qbc.js. -/
structure Instr where
  op : ℕ
  params : List Int
deriving DecidableEq

/-- Buffer index assignment b[i] = v on an integer value: modulo-256 coercion. -/
def toByte (v : Int) : ℕ := (v % 256).toNat

/-- Little-endian byte serialization of a 32-bit natural. -/
def u32Bytes (v : ℕ) : List ℕ :=
  [v % 256, v / 256 % 256, v / 65536 % 256, v / 16777216 % 256]

/-- Buffer.readUInt32LE. -/
def readU32 (b0 b1 b2 b3 : ℕ) : ℕ := b0 + 256 * b1 + 65536 * b2 + 16777216 * b3

/-- Buffer.readInt32LE: the unsigned read reinterpreted in two's complement. -/
def readI32 (b0 b1 b2 b3 : ℕ) : Int :=
  let u := readU32 b0 b1 b2 b3
  if u < 2 ^ 31 then (u : Int) else (u : Int) - 2 ^ 32

/-- Buffer.writeUInt32LE, which range-checks its value. -/
def writeU32 (v : Int) : Except String (List ℕ) :=
  if 0 ≤ v ∧ v < 2 ^ 32 then .ok (u32Bytes v.toNat)
  else .error "value out of range"

/-- Buffer.writeInt32LE, which range-checks its value and stores two's
complement. -/
def writeI32 (v : Int) : Except String (List ℕ) :=
  if -(2 ^ 31) ≤ v ∧ v < 2 ^ 31 then .ok (u32Bytes ((v % 2 ^ 32).toNat))
  else .error "value out of range"

/-- Buffer.writeFloatLE and readFloatLE are modelled on bit patterns: the angle
parameter of a rotation instruction is represented by the IEEE-754 binary32 bit
pattern of its value, serialized little-endian.  The pattern/value correspondence
is a bijection on angles that are exact binary32 values and is outside the
shallow embedding. -/
def writeF32 (v : Int) : List ℕ := u32Bytes ((v % 2 ^ 32).toNat)

/-- The little-endian 32-bit pattern read back by readFloatLE. -/
def readF32 (b0 b1 b2 b3 : ℕ) : Int := (readU32 b0 b1 b2 b3 : Int)

/-- encodeInstruction of qbc.js: reject opcodes outside the enum values, then
emit the opcode byte followed by the operand bytes of its group (byte-sized
operands through buffer index assignment, 32-bit operands through the checked
Buffer writers).  Parameters the group does not use are ignored, missing ones
default like the zero-filled buffer. -/
def encodeInstruction (ins : Instr) : Except String (List ℕ) :=
  if ins.op ∈ qbcOpcodeValues then
    let p : ℕ → Int := fun j => ins.params.getD j 0
    match ins.op with
    | 0x01 | 0x02 => .ok [ins.op, toByte (p 0)]
    | 0x10 | 0x11 | 0x12 | 0x13 | 0x14 | 0x15 => .ok [ins.op, toByte (p 0)]
    | 0x20 | 0x21 | 0x22 | 0x23 => .ok ([ins.op, toByte (p 0)] ++ writeF32 (p 1))
    | 0x30 | 0x31 | 0x32 | 0x33 => .ok [ins.op, toByte (p 0), toByte (p 1)]
    | 0x40 | 0x41 => .ok [ins.op, toByte (p 0), toByte (p 1), toByte (p 2)]
    | 0x50 => .ok [ins.op, toByte (p 0), toByte (p 1)]
    | 0x60 => (writeU32 (p 1)).map (fun bs => [ins.op, toByte (p 0)] ++ bs)
    | 0x61 => (writeU32 (p 0)).map (fun bs => ins.op :: bs)
    | 0x70 => (writeI32 (p 1)).map (fun bs => [ins.op, toByte (p 0)] ++ bs)
    | 0x71 => .ok [ins.op, toByte (p 0), toByte (p 1)]
    | 0x80 | 0x81 | 0x82 | 0x83 | 0x90 | 0x91 | 0x92 | 0xA0 | 0xA1 | 0xA2 | 0xA3 =>
        .ok [ins.op, toByte (p 0), toByte (p 1), toByte (p 2)]
    | 0x93 => .ok [ins.op, toByte (p 0), toByte (p 1)]
    | 0x51 | 0xFF => .ok [ins.op]
    | _ => .error "Unknown opcode"
  else .error "Invalid opcode"

/-- decodeInstruction of qbc.js: switch on the opcode byte, read the group's
operands, return the instruction and the bytes consumed.  An opcode outside the
switch (including a read past the end of the buffer, which yields undefined)
falls to the default branch and throws.  Operand reads past the end would push
undefined in JS; they are modelled as 0 and never arise in the claims. -/
def decodeInstruction (buf : List ℕ) (offset : ℕ) : Except String (Instr × ℕ) :=
  match buf.get? offset with
  | none => .error "Unknown opcode"
  | some op =>
      let b : ℕ → ℕ := fun j => buf.getD (offset + j) 0
      match op with
      | 0x01 | 0x02 => .ok (⟨op, [(b 1 : Int)]⟩, 2)
      | 0x10 | 0x11 | 0x12 | 0x13 | 0x14 | 0x15 => .ok (⟨op, [(b 1 : Int)]⟩, 2)
      | 0x20 | 0x21 | 0x22 | 0x23 =>
          .ok (⟨op, [(b 1 : Int), readF32 (b 2) (b 3) (b 4) (b 5)]⟩, 6)
      | 0x30 | 0x31 | 0x32 | 0x33 => .ok (⟨op, [(b 1 : Int), (b 2 : Int)]⟩, 3)
      | 0x40 | 0x41 => .ok (⟨op, [(b 1 : Int), (b 2 : Int), (b 3 : Int)]⟩, 4)
      | 0x50 => .ok (⟨op, [(b 1 : Int), (b 2 : Int)]⟩, 3)
      | 0x60 => .ok (⟨op, [(b 1 : Int), (readU32 (b 2) (b 3) (b 4) (b 5) : Int)]⟩, 6)
      | 0x61 => .ok (⟨op, [(readU32 (b 1) (b 2) (b 3) (b 4) : Int)]⟩, 5)
      | 0x70 => .ok (⟨op, [(b 1 : Int), readI32 (b 2) (b 3) (b 4) (b 5)]⟩, 6)
      | 0x71 => .ok (⟨op, [(b 1 : Int), (b 2 : Int)]⟩, 3)
      | 0x80 | 0x81 | 0x82 | 0x83 | 0x90 | 0x91 | 0x92 | 0xA0 | 0xA1 | 0xA2 | 0xA3 =>
          .ok (⟨op, [(b 1 : Int), (b 2 : Int), (b 3 : Int)]⟩, 4)
      | 0x93 => .ok (⟨op, [(b 1 : Int), (b 2 : Int)]⟩, 3)
      | 0x51 | 0xFF => .ok (⟨op, []⟩, 1)
      | _ => .error "Unknown opcode"

/-- The kinds of operand the qbc.js encoder writes: a single byte, or one of
the three 32-bit little-endian Buffer formats (float, unsigned int, signed
int). -/
inductive PKind
  | byte
  | angle
  | u32
  | i32

/-- The operand kinds each opcode takes, grouped exactly as the switch of
encodeInstruction in qbc.js writes them: byte-sized qubit references and
addresses, a 32-bit little-endian angle (writeFloatLE), unsigned 32-bit jump
targets (writeUInt32LE), a signed 32-bit store value (writeInt32LE); END and
MEASURE_ALL take none, NOT_CLASSICAL two bytes, the other classical binary and
comparison opcodes three. -/
def opParamKinds (op : ℕ) : Option (List PKind) :=
  if op = 0x01 ∨ op = 0x02 ∨ (0x10 ≤ op ∧ op ≤ 0x15) then some [.byte]
  else if 0x20 ≤ op ∧ op ≤ 0x23 then some [.byte, .angle]
  else if 0x30 ≤ op ∧ op ≤ 0x33 then some [.byte, .byte]
  else if op = 0x40 ∨ op = 0x41 then some [.byte, .byte, .byte]
  else if op = 0x50 then some [.byte, .byte]
  else if op = 0x51 ∨ op = 0xFF then some []
  else if op = 0x60 then some [.byte, .u32]
  else if op = 0x61 then some [.u32]
  else if op = 0x70 then some [.byte, .i32]
  else if op = 0x71 then some [.byte, .byte]
  else if op = 0x93 then some [.byte, .byte]
  else if (0x80 ≤ op ∧ op ≤ 0x83) ∨ (0x90 ≤ op ∧ op ≤ 0x92) ∨
      (0xA0 ≤ op ∧ op ≤ 0xA3) then some [.byte, .byte, .byte]
  else none

/-- The value range of each parameter kind. -/
def pkOk : PKind → Int → Prop
  | .byte, v => 0 ≤ v ∧ v < 256
  | .angle, v => 0 ≤ v ∧ v < 2 ^ 32
  | .u32, v => 0 ≤ v ∧ v < 2 ^ 32
  | .i32, v => -(2 ^ 31) ≤ v ∧ v < 2 ^ 31

/-- An instruction is well-formed when its opcode is listed and its parameters
match the table's kinds and ranges. -/
def validInstr (ins : Instr) : Prop :=
  match opParamKinds ins.op with
  | some ks => List.Forall₂ pkOk ks ins.params
  | none => False

/-- The state-vector methods of two-index mutation signature that exist on the
StateVector class of state-vector.js, keyed by method name: only applyCNOT.  The
class defines neither applySWAP nor applyToffoli, so resolving those names on
this.stateVector yields undefined. -/
def svKernel2 : String → Option (ℕ → ℕ → QState → Except String QState)
  | "applyCNOT" => some applyCNOTE
  | _ => none

/-- GateExecutor.applySWAP: resolve both handles, then invoke
this.stateVector.applySWAP(index1, index2); the name resolves to undefined on the
StateVector class, so the invocation throws a TypeError before the state is
touched. -/
def gateExecApplySWAP (q1 q2 : JsKey) (st : VmState) :
    Except String Unit × VmState :=
  match getQubitIndexE st q1 with
  | .error e => (.error e, st)
  | .ok i1 =>
      match getQubitIndexE st q2 with
      | .error e => (.error e, st)
      | .ok i2 =>
          match svKernel2 "applySWAP" with
          | none =>
              (.error "TypeError: this.stateVector.applySWAP is not a function", st)
          | some kern =>
              match kern i1 i2 st.sv with
              | .error e => (.error e, st)
              | .ok sv2 => (.ok (), { st with sv := sv2 })

/-- Unitarity of a 2×2 matrix over exact complex pairs: the conjugate transpose
times the matrix is the identity. -/
def Mat2.IsUnitary (U : Mat2) : Prop :=
  caddP (cmulP (conjP U.u00) U.u00) (cmulP (conjP U.u10) U.u10) = (1, 0) ∧
  caddP (cmulP (conjP U.u00) U.u01) (cmulP (conjP U.u10) U.u11) = (0, 0) ∧
  caddP (cmulP (conjP U.u01) U.u00) (cmulP (conjP U.u11) U.u10) = (0, 0) ∧
  caddP (cmulP (conjP U.u01) U.u01) (cmulP (conjP U.u11) U.u11) = (1, 0)

/-- Unitarity of a 4×4 matrix over exact complex pairs. -/
def mat4Unitary (M : ℕ → ℕ → Cpx) : Prop :=
  ∀ i < 4, ∀ j < 4,
    caddP (caddP (caddP (cmulP (conjP (M 0 i)) (M 0 j))
      (cmulP (conjP (M 1 i)) (M 1 j)))
      (cmulP (conjP (M 2 i)) (M 2 j)))
      (cmulP (conjP (M 3 i)) (M 3 j)) =
    (if i = j then ((1 : ℝ), (0 : ℝ)) else ((0 : ℝ), (0 : ℝ)))

/-- The initial zero-qubit state vector: amplitude 1 at index 0. -/
def initSV (maxQ : ℕ) : QState :=
  ⟨0, maxQ, fun i => if i = 0 then some (1, 0) else some (0, 0)⟩

/-- The state vectors reachable from the initial state by successful allocations,
unitary gate-kernel applications (generic 2×2 and 4×4 kernels and the CNOT fast
path) and collapsing measurements with draws from [0, 1). -/
inductive ReachableSV (eps : ℝ) : QState → Prop
  | init (maxQ : ℕ) : ReachableSV eps (initSV maxQ)
  | alloc {s s₂ : QState} : ReachableSV eps s → expandE s = .ok s₂ →
      ReachableSV eps s₂
  | gate1 {s s₂ : QState} (k : ℕ) (U : Mat2) : ReachableSV eps s → U.IsUnitary →
      applySingleQubitGateE eps k U s = .ok s₂ → ReachableSV eps s₂
  | gate2 {s s₂ : QState} (c t : ℕ) (M : ℕ → ℕ → Cpx) : ReachableSV eps s →
      mat4Unitary M → applyTwoQubitGateE eps c t M s = .ok s₂ → ReachableSV eps s₂
  | cnot {s s₂ : QState} (c t : ℕ) : ReachableSV eps s →
      applyCNOTE c t s = .ok s₂ → ReachableSV eps s₂
  | measure {s s₂ : QState} (k : ℕ) (u : ℝ) (r : ℕ) : ReachableSV eps s →
      0 ≤ u → u < 1 → svMeasureE k u s = .ok (r, s₂) → ReachableSV eps s₂

/-- A one-qubit state vector holding |0⟩. -/
def oneQ0 : QState := ⟨1, 32, fun i => if i = 0 then some (1, 0) else some (0, 0)⟩

/-- The state produced by expanding the initial zero-qubit vector once. -/
def expOne : QState :=
  { initSV 32 with
      n := 1,
      amp := fun i => if i < 1 then (initSV 32).amp i else some (0, 0) }

theorem expandE_initSV : expandE (initSV 32) = .ok expOne := by
  simp [expandE, initSV, expOne]

theorem range_two : List.range 2 = [0, 1] := by decide

theorem svMeasure_amp (k : ℕ) (u : ℝ) (s : QState) (i : ℕ) :
    (svMeasure k u s).2.amp i =
      if bitVal i k = (if jsLtN u (probBit k 0 s) then 0 else 1) then
        (if cIsZero (s.amp i) then s.amp i else none)
      else some (0, 0) := rfl

theorem svMeasure_outcome (k : ℕ) (u : ℝ) (s : QState) :
    (svMeasure k u s).1 = if jsLtN u (probBit k 0 s) then 0 else 1 := rfl

theorem probBit_single (s : QState) (hn : s.n = 1) (h0 : s.amp 0 = some (1, 0))
    (h1 : s.amp 1 = some (0, 0)) :
    probBit 0 0 s = some (0 + (1 * 1 + 0 * 0)) := by
  simp [probBit, hn, range_two, bitVal, h0, h1, jsAdd, magSq]

theorem jsLtN_half_one : jsLtN (1 / 2 : ℝ) (some (0 + (1 * 1 + 0 * 0))) := by
  show (1 : ℝ) / 2 < 0 + (1 * 1 + 0 * 0)
  norm_num

theorem measureHalf_outcome (s : QState) (hn : s.n = 1)
    (h0 : s.amp 0 = some (1, 0)) (h1 : s.amp 1 = some (0, 0)) :
    (svMeasure 0 (1 / 2) s).1 = 0 := by
  rw [svMeasure_outcome, probBit_single s hn h0 h1, if_pos jsLtN_half_one]

theorem measureHalf_amp0 (s : QState) (hn : s.n = 1)
    (h0 : s.amp 0 = some (1, 0)) (h1 : s.amp 1 = some (0, 0)) :
    (svMeasure 0 (1 / 2) s).2.amp 0 = none := by
  rw [svMeasure_amp, probBit_single s hn h0 h1, if_pos jsLtN_half_one,
    if_pos (show bitVal 0 0 = 0 by decide), if_neg]
  rw [h0]
  show ¬ (|(1 : ℝ)| < 1e-10 ∧ |(0 : ℝ)| < 1e-10)
  norm_num

theorem measureHalf_amp1 (s : QState) (hn : s.n = 1)
    (h0 : s.amp 0 = some (1, 0)) (h1 : s.amp 1 = some (0, 0)) :
    (svMeasure 0 (1 / 2) s).2.amp 1 = some (0, 0) := by
  rw [svMeasure_amp, probBit_single s hn h0 h1, if_pos jsLtN_half_one,
    if_neg (show ¬ bitVal 1 0 = 0 by decide)]

/-- Claim C3: the outcome rule holds (outcome 0 iff u < p0, and the outcome is 0 or
1) but the collapse contradicts the claim: measuring bit 0 of the one-qubit state
|0⟩ with draw u = 1/2 must, per the claim, leave the surviving amplitude a₀/√p₀ =
1; the code divides the surviving ComplexNumber by the plain number √p, whose
.real/.imag are undefined, so the surviving amplitude comes out with NaN
components (the zeroed half is correct). -/
theorem measureQubit_collapse_is_nan :
    (svMeasureE 0 (1 / 2) oneQ0).map (fun p => (p.1, p.2.amp 0, p.2.amp 1)) =
      .ok (0, none, some (0, 0)) := by
  have he : svMeasureE 0 (1 / 2) oneQ0 = .ok (svMeasure 0 (1 / 2) oneQ0) := by
    simp [svMeasureE, oneQ0]
  rw [he]
  simp only [Except.map]
  rw [measureHalf_outcome oneQ0 rfl rfl rfl, measureHalf_amp0 oneQ0 rfl rfl rfl,
    measureHalf_amp1 oneQ0 rfl rfl rfl]

/-- The state the VM is left in after allocating one qubit and measuring it with
draw 1/2. -/
noncomputable def badSV : QState := (svMeasure 0 (1 / 2) expOne).2

theorem expOne_amp0 : expOne.amp 0 = some (1, 0) := rfl

theorem expOne_amp1 : expOne.amp 1 = some (0, 0) := rfl

theorem badSV_amp0 : badSV.amp 0 = none :=
  measureHalf_amp0 expOne rfl expOne_amp0 expOne_amp1

/-- Claim C2: refuted on the code.  The state reached by allocating one qubit and
measuring it (draw 1/2) is reachable, yet its squared-magnitude sum is NaN, not
within ε of 1: the collapse divides the surviving amplitude by a plain number,
producing NaN components. -/
theorem reachable_state_norm_is_nan :
    ReachableSV (1e-10) badSV ∧ normSquared badSV = none := by
  constructor
  · refine ReachableSV.measure 0 (1 / 2) (svMeasure 0 (1 / 2) expOne).1
      (ReachableSV.alloc (ReachableSV.init 32) expandE_initSV) (by norm_num)
      (by norm_num) ?_
    simp [svMeasureE, badSV]
    show ¬ expOne.n = 0
    decide
  · have hn : badSV.n = 1 := rfl
    simp [normSquared, hn, range_two, badSV_amp0, magSq, jsAdd]

/-- Claim C6: refuted at a = -7, b = 2.  The claim predicts truncation toward zero
(-3); executeClassicalOperation computes Math.floor(a / b), rounding toward
negative infinity, and stores -4. -/
theorem div_truncation_counterexample :
    execClassicalOp .DIV 0 1 2 [(0, -7), (1, 2)] = .ok [(0, -7), (1, 2), (2, -4)] ∧
    (-4 : Int) ≠ -3 := by
  constructor
  · rfl
  · decide

/-- Claim C6 (amended): with both operands stored, DIV with a zero divisor throws
the division-by-zero error, and otherwise stores the quotient rounded toward
negative infinity (Math.floor of the real quotient, Int.fdiv on integers). -/
theorem div_floor_and_div_zero (a b : Int) (aAddr bAddr rAddr : ℕ)
    (mem : List (ℕ × Int)) (ha : memGet mem aAddr = some a)
    (hb : memGet mem bAddr = some b) :
    (b = 0 → execClassicalOp .DIV aAddr bAddr rAddr mem = .error "Division by zero") ∧
    (b ≠ 0 →
      execClassicalOp .DIV aAddr bAddr rAddr mem = .ok (memSet mem rAddr (Int.fdiv a b))) := by
  constructor
  · intro h0
    simp [execClassicalOp, ha, hb, h0]
  · intro hne
    simp [execClassicalOp, ha, hb, hne]

theorem div_floor_witness :
    execClassicalOp .DIV 0 1 2 [(0, -7), (1, 2)] =
      .ok (memSet [(0, -7), (1, 2)] 2 (Int.fdiv (-7) 2)) :=
  (div_floor_and_div_zero (-7) 2 0 1 2 [(0, -7), (1, 2)] rfl rfl).2 (by decide)

/-- A two-qubit VM with both handles live and the state vector in |00⟩. -/
def vm2 : VmState :=
  { qubits := [(JsKey.str "qa", 0), (JsKey.str "qb", 1)],
    nextQubitIndex := 2,
    maxQubits := 32,
    groups := [(JsKey.str "qa", [JsKey.str "qa"]), (JsKey.str "qb", [JsKey.str "qb"])],
    sv := ⟨2, 32, fun i => if i = 0 then some (1, 0) else some (0, 0)⟩,
    results := [],
    history := [],
    totalMeasurements := 0,
    count0 := 0,
    count1 := 0 }

/-- Claim C7: refuted on the code.  With two live handles, the gate executor's
applySWAP resolves both bit positions and then calls
this.stateVector.applySWAP, a method the StateVector class does not define, so
the call throws a TypeError and no amplitude is ever exchanged (the repository's
own state-vector unit test calls the missing method too). -/
theorem applySWAP_throws_typeerror :
    gateExecApplySWAP (JsKey.str "qa") (JsKey.str "qb") vm2 =
      (.error "TypeError: this.stateVector.applySWAP is not a function", vm2) := rfl

/-- An empty VM whose registry capacity is 2 qubits. -/
def vmEmpty2 : VmState :=
  { qubits := [],
    nextQubitIndex := 0,
    maxQubits := 2,
    groups := [],
    sv := ⟨0, 32, fun i => if i = 0 then some (1, 0) else some (0, 0)⟩,
    results := [],
    history := [],
    totalMeasurements := 0,
    count0 := 0,
    count1 := 0 }

/-- Claim C9: refuted on the code.  allocateQubits(3) on a registry with
maxQubits = 2 fails on the third allocation, but the first two allocations are
not rolled back: the registry's handle map has gained two handles. -/
theorem alloc_partial_failure_mutates :
    (allocateQubits ["qa", "qb", "qc"] vmEmpty2).1 =
      .error "Cannot allocate more than 2 qubits" ∧
    (allocateQubits ["qa", "qb", "qc"] vmEmpty2).2.qubits =
      [(JsKey.str "qa", 0), (JsKey.str "qb", 1)] ∧
    (allocateQubits ["qa", "qb", "qc"] vmEmpty2).2.qubits ≠ vmEmpty2.qubits := by
  refine ⟨rfl, rfl, ?_⟩
  have h2 : (allocateQubits ["qa", "qb", "qc"] vmEmpty2).2.qubits =
      [(JsKey.str "qa", 0), (JsKey.str "qb", 1)] := rfl
  rw [h2]
  simp [vmEmpty2]

/-- Claim C9 (amended): an allocation refused by the registry's capacity check
fails before any state is mutated — the whole VM state, registry handle map and
state vector included, is returned unchanged. -/
theorem alloc_capacity_refusal (st : VmState) (uuid : String)
    (h : st.qubits.length ≥ st.maxQubits) :
    allocateQubit uuid st =
      (.error ("Cannot allocate more than " ++ toString st.maxQubits ++ " qubits"),
        st) := by
  simp [allocateQubit, h]

/-- A VM at its capacity of 2 qubits, holding |00⟩ in a length-4 state vector. -/
def vmFull2 : VmState :=
  { qubits := [(JsKey.str "qa", 0), (JsKey.str "qb", 1)],
    nextQubitIndex := 2,
    maxQubits := 2,
    groups := [(JsKey.str "qa", [JsKey.str "qa"]), (JsKey.str "qb", [JsKey.str "qb"])],
    sv := ⟨2, 2, fun i => if i = 0 then some (1, 0) else some (0, 0)⟩,
    results := [],
    history := [],
    totalMeasurements := 0,
    count0 := 0,
    count1 := 0 }

theorem alloc_capacity_witness :
    allocateQubit "qc" vmFull2 =
      (.error "Cannot allocate more than 2 qubits", vmFull2) ∧
    (allocateQubit "qc" vmFull2).2.sv.n = 2 := by
  have h := alloc_capacity_refusal vmFull2 "qc" (by decide)
  exact ⟨h.trans (by rfl), by rw [h]; rfl⟩

/-- Claim C10: a non-collapsing measurement of a live handle returns 0 or 1 and
leaves the whole VM state — state vector, per-handle result store, history and
metrics — untouched. -/
theorem noncollapsing_measure_pure (st : VmState) (qid : JsKey) (idx : ℕ) (u : ℝ)
    (h : lookupKey st.qubits qid = some idx) :
    (engMeasureQubit true qid u st).2 = st ∧
    ((engMeasureQubit true qid u st).1 = .ok 0 ∨
      (engMeasureQubit true qid u st).1 = .ok 1) := by
  constructor
  · simp [engMeasureQubit, h]
  · by_cases hc : jsLtN u (engProb idx 0 st.sv)
    · left
      simp [engMeasureQubit, h, hc]
    · right
      simp [engMeasureQubit, h, hc]

/-- A one-qubit VM holding |0⟩ with its handle live. -/
def vm1 : VmState :=
  { qubits := [(JsKey.str "qa", 0)],
    nextQubitIndex := 1,
    maxQubits := 32,
    groups := [(JsKey.str "qa", [JsKey.str "qa"])],
    sv := oneQ0,
    results := [],
    history := [],
    totalMeasurements := 0,
    count0 := 0,
    count1 := 0 }

theorem noncollapsing_measure_witness :
    (engMeasureQubit true (JsKey.str "qa") (1 / 2) vm1).2 = vm1 ∧
    ((engMeasureQubit true (JsKey.str "qa") (1 / 2) vm1).1 = .ok 0 ∨
      (engMeasureQubit true (JsKey.str "qa") (1 / 2) vm1).1 = .ok 1) :=
  noncollapsing_measure_pure vm1 (JsKey.str "qa") 0 (1 / 2) rfl

theorem xor_two_pow_of_testBit_true :
    ∀ (k i : ℕ), i.testBit k = true → i ^^^ 2 ^ k = i - 2 ^ k := by
  intro k
  induction k with
  | zero =>
      intro i h
      induction i using Nat.bitCasesOn with
      | h b m =>
          have hb : b = true := by simpa using h
          subst hb
          have hx : Nat.bit true m ^^^ Nat.bit true 0 = Nat.bit false m := by
            rw [Nat.xor_bit]
            simp
          simpa [Nat.bit_val] using hx
  | succ k ih =>
      intro i h
      induction i using Nat.bitCasesOn with
      | h b m =>
          have hm : m.testBit k = true := by
            simpa [Nat.testBit_bit_succ] using h
          have hge : 2 ^ k ≤ m := by
            by_contra hlt
            rw [Nat.testBit_eq_false_of_lt (by omega)] at hm
            exact Bool.false_ne_true hm
          have h2 : (2 : ℕ) ^ (k + 1) = Nat.bit false (2 ^ k) := by
            simp [Nat.bit_val]
            ring
          rw [h2, Nat.xor_bit, ih m hm]
          cases b <;> simp [Nat.bit_val] <;> omega

theorem testBit_clearBit (k i j : ℕ) :
    (clearBit k i).testBit j = if j = k then false else i.testBit j := by
  unfold clearBit
  by_cases h : i.testBit k
  · rw [if_pos h, Nat.one_shiftLeft, ← xor_two_pow_of_testBit_true k i h,
      Nat.testBit_xor]
    by_cases hj : j = k
    · subst hj
      simp [h, Nat.testBit_two_pow_self]
    · simp [hj, Nat.testBit_two_pow_of_ne (fun hh => hj hh.symm)]
  · rw [if_neg h]
    by_cases hj : j = k
    · subst hj
      simp [h]
    · simp [hj]

theorem testBit_small_shift (cb c j : ℕ) (hcb : cb ≤ 1) :
    (cb <<< c).testBit j = (decide (j = c) && decide (cb = 1)) := by
  interval_cases cb
  · simp [Nat.shiftLeft_eq]
  · rw [Nat.one_shiftLeft]
    by_cases hj : j = c
    · subst hj
      simp [Nat.testBit_two_pow_self]
    · simp [hj, Nat.testBit_two_pow_of_ne (fun hh => hj hh.symm)]

theorem testBit_withBits (c t : ℕ) (hct : c ≠ t) (cb tb : ℕ)
    (hcb : cb ≤ 1) (htb : tb ≤ 1) (r j : ℕ) :
    (withBits c t cb tb r).testBit j =
      if j = c then decide (cb = 1)
      else if j = t then decide (tb = 1)
      else r.testBit j := by
  unfold withBits
  rw [Nat.testBit_or, Nat.testBit_or, testBit_clearBit,
    testBit_small_shift cb c j hcb, testBit_small_shift tb t j htb,
    testBit_clearBit]
  by_cases hjc : j = c
  · subst hjc
    simp [fun hh : j = t => hct hh]
  · by_cases hjt : j = t
    · subst hjt
      simp [hjc]
    · simp [hjc, hjt]

theorem withBits_00 (c t : ℕ) (hct : c ≠ t) (r : ℕ) (hc : r.testBit c = false)
    (ht : r.testBit t = false) : withBits c t 0 0 r = r := by
  apply Nat.eq_of_testBit_eq
  intro j
  rw [testBit_withBits c t hct 0 0 (by norm_num) (by norm_num)]
  by_cases hjc : j = c
  · subst hjc
    simp [hc]
  · by_cases hjt : j = t
    · subst hjt
      simp [ht, hjc]
    · simp [hjc, hjt]

theorem withBits_01 (c t : ℕ) (hct : c ≠ t) (r : ℕ) (hc : r.testBit c = false)
    (ht : r.testBit t = true) : withBits c t 0 1 r = r := by
  apply Nat.eq_of_testBit_eq
  intro j
  rw [testBit_withBits c t hct 0 1 (by norm_num) (by norm_num)]
  by_cases hjc : j = c
  · subst hjc
    simp [hc]
  · by_cases hjt : j = t
    · subst hjt
      simp [ht, hjc]
    · simp [hjc, hjt]

theorem withBits_11 (c t : ℕ) (hct : c ≠ t) (r : ℕ) (hc : r.testBit c = true)
    (ht : r.testBit t = false) : withBits c t 1 1 r = r ^^^ 2 ^ t := by
  apply Nat.eq_of_testBit_eq
  intro j
  rw [testBit_withBits c t hct 1 1 (by norm_num) (by norm_num), Nat.testBit_xor]
  by_cases hjc : j = c
  · subst hjc
    simp [hc, Nat.testBit_two_pow_of_ne (fun hh => hct hh.symm)]
  · by_cases hjt : j = t
    · subst hjt
      simp [ht, hjc, Nat.testBit_two_pow_self]
    · simp [hjc, hjt, Nat.testBit_two_pow_of_ne (fun hh => hjt hh.symm)]

theorem withBits_10 (c t : ℕ) (hct : c ≠ t) (r : ℕ) (hc : r.testBit c = true)
    (ht : r.testBit t = true) : withBits c t 1 0 r = r ^^^ 2 ^ t := by
  apply Nat.eq_of_testBit_eq
  intro j
  rw [testBit_withBits c t hct 1 0 (by norm_num) (by norm_num), Nat.testBit_xor]
  by_cases hjc : j = c
  · subst hjc
    simp [hc, Nat.testBit_two_pow_of_ne (fun hh => hct hh.symm)]
  · by_cases hjt : j = t
    · subst hjt
      simp [ht, hjc, Nat.testBit_two_pow_self]
    · simp [hjc, hjt, Nat.testBit_two_pow_of_ne (fun hh => hjt hh.symm)]

theorem cmul_one_right (z : Cx) (h : z.isSome) : cmul z (some (1, 0)) = z := by
  obtain ⟨x, hx⟩ := Option.isSome_iff_exists.mp h
  subst hx
  simp [cmul, cmulP]

theorem cmul_zero_right (z : Cx) (h : z.isSome) : cmul z (some (0, 0)) = some (0, 0) := by
  obtain ⟨x, hx⟩ := Option.isSome_iff_exists.mp h
  subst hx
  simp [cmul, cmulP]

theorem cadd_zero_left (z : Cx) (h : z.isSome) : cadd (some (0, 0)) z = z := by
  obtain ⟨x, hx⟩ := Option.isSome_iff_exists.mp h
  subst hx
  simp [cadd, caddP]

theorem cadd_zero_right (z : Cx) (h : z.isSome) : cadd z (some (0, 0)) = z := by
  obtain ⟨x, hx⟩ := Option.isSome_iff_exists.mp h
  subst hx
  simp [cadd, caddP]

theorem twoGate_cnot_amp (c t : ℕ) (hct : c ≠ t) (a : ℕ → Cx)
    (hfin : ∀ i, (a i).isSome) (r : ℕ) :
    twoGateAmp c t cnotMat a r =
      if r.testBit c then a (r ^^^ (1 <<< t)) else a r := by
  rw [Nat.one_shiftLeft]
  unfold twoGateAmp
  cases hc : r.testBit c with
  | true =>
    cases ht : r.testBit t with
    | true =>
      have hb : basisIdx c t r = 3 := by
        unfold basisIdx bitVal
        rw [hc, ht]
        decide
      rw [hb, withBits_10 c t hct r hc ht]
      obtain ⟨z0, h0⟩ := Option.isSome_iff_exists.mp (hfin (withBits c t 0 0 r))
      obtain ⟨z1, hh1⟩ := Option.isSome_iff_exists.mp (hfin (withBits c t 0 1 r))
      obtain ⟨z2, h2⟩ := Option.isSome_iff_exists.mp (hfin (r ^^^ 2 ^ t))
      obtain ⟨z3, h3⟩ := Option.isSome_iff_exists.mp (hfin (withBits c t 1 1 r))
      rw [h0, hh1, h2, h3]
      simp [cnotMat, cmul, cmulP, cadd, caddP]
    | false =>
      have hb : basisIdx c t r = 2 := by
        unfold basisIdx bitVal
        rw [hc, ht]
        decide
      rw [hb, withBits_11 c t hct r hc ht]
      obtain ⟨z0, h0⟩ := Option.isSome_iff_exists.mp (hfin (withBits c t 0 0 r))
      obtain ⟨z1, hh1⟩ := Option.isSome_iff_exists.mp (hfin (withBits c t 0 1 r))
      obtain ⟨z2, h2⟩ := Option.isSome_iff_exists.mp (hfin (withBits c t 1 0 r))
      obtain ⟨z3, h3⟩ := Option.isSome_iff_exists.mp (hfin (r ^^^ 2 ^ t))
      rw [h0, hh1, h2, h3]
      simp [cnotMat, cmul, cmulP, cadd, caddP]
  | false =>
    cases ht : r.testBit t with
    | true =>
      have hb : basisIdx c t r = 1 := by
        unfold basisIdx bitVal
        rw [hc, ht]
        decide
      rw [hb, withBits_01 c t hct r hc ht]
      obtain ⟨z0, h0⟩ := Option.isSome_iff_exists.mp (hfin (withBits c t 0 0 r))
      obtain ⟨z1, hh1⟩ := Option.isSome_iff_exists.mp (hfin r)
      obtain ⟨z2, h2⟩ := Option.isSome_iff_exists.mp (hfin (withBits c t 1 0 r))
      obtain ⟨z3, h3⟩ := Option.isSome_iff_exists.mp (hfin (withBits c t 1 1 r))
      rw [h0, hh1, h2, h3]
      simp [cnotMat, cmul, cmulP, cadd, caddP]
    | false =>
      have hb : basisIdx c t r = 0 := by
        unfold basisIdx bitVal
        rw [hc, ht]
        decide
      rw [hb, withBits_00 c t hct r hc ht]
      obtain ⟨z0, h0⟩ := Option.isSome_iff_exists.mp (hfin r)
      obtain ⟨z1, hh1⟩ := Option.isSome_iff_exists.mp (hfin (withBits c t 0 1 r))
      obtain ⟨z2, h2⟩ := Option.isSome_iff_exists.mp (hfin (withBits c t 1 0 r))
      obtain ⟨z3, h3⟩ := Option.isSome_iff_exists.mp (hfin (withBits c t 1 1 r))
      rw [h0, hh1, h2, h3]
      simp [cnotMat, cmul, cmulP, cadd, caddP]

/-- The real value of a finite amplitude's squared magnitude (0 on NaN, unused). -/
def msq : Cx → ℝ
  | some x => x.1 * x.1 + x.2 * x.2
  | none => 0

theorem magSq_some (z : Cx) (h : z.isSome) : magSq z = some (msq z) := by
  obtain ⟨x, hx⟩ := Option.isSome_iff_exists.mp h
  subst hx
  simp [magSq, msq]

theorem foldl_jsAdd_eq_sum (f : ℕ → Cx) (hf : ∀ i, (f i).isSome) (m : ℕ) (c : ℝ) :
    (List.range m).foldl (fun acc i => jsAdd acc (magSq (f i))) (some c) =
      some (c + ∑ i ∈ Finset.range m, msq (f i)) := by
  induction m with
  | zero => simp
  | succ m ih =>
      rw [List.range_succ, List.foldl_append, ih, List.foldl_cons, List.foldl_nil,
        magSq_some (f m) (hf m), Finset.sum_range_succ]
      simp [jsAdd]
      ring

theorem normSquared_eq_sum (s : QState) (hf : ∀ i, (s.amp i).isSome) :
    normSquared s = some (∑ i ∈ Finset.range (2 ^ s.n), msq (s.amp i)) := by
  unfold normSquared
  rw [foldl_jsAdd_eq_sum s.amp hf]
  simp

theorem sum_msq_cnot (c t n : ℕ) (ht : t < n) (hct : c ≠ t) (a : ℕ → Cx) :
    ∑ r ∈ Finset.range (2 ^ n),
        msq (if r.testBit c then a (r ^^^ (1 <<< t)) else a r) =
      ∑ r ∈ Finset.range (2 ^ n), msq (a r) := by
  simp only [Nat.one_shiftLeft]
  apply Finset.sum_nbij' (fun r => if r.testBit c then r ^^^ 2 ^ t else r)
    (fun r => if r.testBit c then r ^^^ 2 ^ t else r)
  · intro r hr
    rw [Finset.mem_range] at hr ⊢
    by_cases h : r.testBit c
    · rw [if_pos h]
      exact Nat.xor_lt_two_pow hr (Nat.pow_lt_pow_right (by norm_num) ht)
    · rwa [if_neg h]
  · intro r hr
    rw [Finset.mem_range] at hr ⊢
    by_cases h : r.testBit c
    · rw [if_pos h]
      exact Nat.xor_lt_two_pow hr (Nat.pow_lt_pow_right (by norm_num) ht)
    · rwa [if_neg h]
  · intro r _
    by_cases h : r.testBit c
    · rw [if_pos h]
      have hkeep : (r ^^^ 2 ^ t).testBit c = r.testBit c := by
        rw [Nat.testBit_xor,
          Nat.testBit_two_pow_of_ne (fun hh => hct hh.symm)]
        simp
      rw [if_pos (hkeep.trans (by simp [h])), Nat.xor_cancel_right]
    · rw [if_neg h, if_neg h]
  · intro r _
    by_cases h : r.testBit c
    · rw [if_pos h]
      have hkeep : (r ^^^ 2 ^ t).testBit c = r.testBit c := by
        rw [Nat.testBit_xor,
          Nat.testBit_two_pow_of_ne (fun hh => hct hh.symm)]
        simp
      rw [if_pos (hkeep.trans (by simp [h])), Nat.xor_cancel_right]
    · rw [if_neg h, if_neg h]
  · intro r _
    by_cases h : r.testBit c
    · rw [if_pos h, if_pos h]
    · rw [if_neg h, if_neg h]

theorem svNormalize_skip (eps : ℝ) (s : QState) (v : ℝ)
    (hv : normSquared s = some v) (hle : |Real.sqrt v - 1| ≤ eps) :
    svNormalize eps s = s := by
  unfold svNormalize
  rw [hv]
  unfold jsSqrt
  by_cases hneg : v < 0
  · simp [hneg]
  · simp only [hneg, if_false]
    rw [if_neg (not_lt.mpr hle)]

/-- Claim C4: on a state vector satisfying the data-model invariant (finite
amplitudes whose norm is within ε of 1), CNOT through the generic 4×4 kernel and
CNOT through the fast path produce identical state vectors — exactly equal, hence
within ε: the generic kernel permutes the amplitudes the same way and its closing
normalize step leaves the vector untouched because the norm is unchanged. -/
theorem cnot_generic_matches_fast (eps : ℝ) (c t : ℕ) (s : QState)
    (hc : c < s.n) (ht : t < s.n) (hne : c ≠ t)
    (hfin : ∀ i, (s.amp i).isSome)
    (v : ℝ) (hv : normSquared s = some v) (hle : |Real.sqrt v - 1| ≤ eps) :
    applyTwoQubitGateE eps c t cnotMat s = applyCNOTE c t s := by
  have hamp : twoGateAmp c t cnotMat s.amp =
      (fun r => if r.testBit c then s.amp (r ^^^ (1 <<< t)) else s.amp r) :=
    funext (twoGate_cnot_amp c t hne s.amp hfin)
  have hf2 : ∀ i,
      (({ s with
            amp := fun r =>
              if r.testBit c then s.amp (r ^^^ (1 <<< t)) else s.amp r } :
          QState).amp i).isSome := by
    intro i
    by_cases h : i.testBit c <;> simp [h, hfin _]
  have hns : normSquared
      { s with
          amp := fun r =>
            if r.testBit c then s.amp (r ^^^ (1 <<< t)) else s.amp r } =
      some v := by
    rw [normSquared_eq_sum _ hf2]
    have hperm := sum_msq_cnot c t s.n ht hne s.amp
    rw [normSquared_eq_sum s hfin] at hv
    rw [show ({ s with
          amp := fun r =>
            if r.testBit c then s.amp (r ^^^ (1 <<< t)) else s.amp r } :
        QState).n = s.n from rfl]
    rw [hperm]
    exact hv
  unfold applyTwoQubitGateE applyCNOTE
  simp only [if_pos hc, if_pos ht, if_neg hne]
  rw [hamp]
  exact congrArg Except.ok (svNormalize_skip eps _ v hns hle)

/-- A two-qubit state vector holding |00⟩. -/
def twoQ00 : QState := ⟨2, 32, fun i => if i = 0 then some (1, 0) else some (0, 0)⟩

theorem range_four : List.range 4 = [0, 1, 2, 3] := by decide

theorem cnot_generic_matches_fast_witness :
    applyTwoQubitGateE (1e-10) 0 1 cnotMat twoQ00 = applyCNOTE 0 1 twoQ00 := by
  have hfin : ∀ i, (twoQ00.amp i).isSome := by
    intro i
    unfold twoQ00
    by_cases h : i = 0 <;> simp [h]
  have hv : normSquared twoQ00 = some (0 + (1 * 1 + 0 * 0) + (0 * 0 + 0 * 0) +
      (0 * 0 + 0 * 0) + (0 * 0 + 0 * 0)) := by
    simp [normSquared, twoQ00, range_four, magSq, jsAdd]
  have hv1 : normSquared twoQ00 = some 1 := by
    rw [hv]
    norm_num
  refine cnot_generic_matches_fast (1e-10) 0 1 twoQ00 (by decide) (by decide)
    (by decide) hfin 1 hv1 ?_
  rw [Real.sqrt_one]
  norm_num

/-- Claim C1 (amended): when the transformed vector's norm stays within ε of 1 —
as it does for any unitary U on a normalized state — applySingleQubitGate(k, U)
returns exactly the vector in which every pair (i, i xor 2^k) with bit k of i
clear is replaced by (U00·a_i + U01·a_flip, U10·a_i + U11·a_flip); otherwise the
trailing normalize step rewrites the amplitudes instead. -/
theorem singleGate_pair_formula (eps : ℝ) (k : ℕ) (U : Mat2) (s : QState)
    (hk : k < s.n) (v : ℝ)
    (hv : normSquared { s with amp := singleGateAmp k U s.amp } = some v)
    (hle : |Real.sqrt v - 1| ≤ eps) :
    applySingleQubitGateE eps k U s =
        .ok { s with amp := singleGateAmp k U s.amp } ∧
    ∀ i x y, i.testBit k = false → s.amp i = some x →
      s.amp (i ^^^ (1 <<< k)) = some y →
      singleGateAmp k U s.amp i = some (caddP (cmulP U.u00 x) (cmulP U.u01 y)) ∧
      singleGateAmp k U s.amp (i ^^^ (1 <<< k)) =
        some (caddP (cmulP U.u10 x) (cmulP U.u11 y)) := by
  constructor
  · unfold applySingleQubitGateE
    rw [if_pos hk]
    exact congrArg Except.ok (svNormalize_skip eps _ v hv hle)
  · intro i x y hbit hx hy
    constructor
    · unfold singleGateAmp
      rw [hbit]
      simp only [Bool.false_eq_true, if_false]
      rw [hx, hy]
      simp [cadd, cmul, caddP, cmulP]
      constructor <;> ring
    · have hbit2 : (i ^^^ (1 <<< k)).testBit k = true := by
        rw [Nat.one_shiftLeft, Nat.testBit_xor, hbit, Nat.testBit_two_pow_self]
        rfl
      unfold singleGateAmp
      rw [hbit2]
      simp only [if_true]
      rw [Nat.xor_cancel_right, hx, hy]
      simp [cadd, cmul, caddP, cmulP]
      constructor <;> ring

theorem normSquared_one_qubit (s : QState) (hn : s.n = 1) :
    normSquared s = jsAdd (jsAdd (some 0) (magSq (s.amp 0))) (magSq (s.amp 1)) := by
  unfold normSquared
  rw [hn, show (2 : ℕ) ^ 1 = 2 from rfl, range_two]
  rfl

theorem svNormalize_all_nan (eps : ℝ) (s : QState) (w : ℝ)
    (hj : jsSqrt (normSquared s) = some w) (hgt : eps < |w - 1|) :
    svNormalize eps s = { s with amp := fun _ => none } := by
  unfold svNormalize
  rw [hj]
  simp [hgt]

/-- The Pauli X matrix of quantum-gates.js. -/
def xGate : Mat2 := ⟨(0, 0), (1, 0), (1, 0), (0, 0)⟩

theorem xGate_amp0 : singleGateAmp 0 xGate oneQ0.amp 0 = some (0, 0) := by
  unfold singleGateAmp
  norm_num [oneQ0, xGate, cadd, cmul, caddP, cmulP]

theorem xGate_amp1 : singleGateAmp 0 xGate oneQ0.amp 1 = some (1, 0) := by
  unfold singleGateAmp
  norm_num [oneQ0, xGate, cadd, cmul, caddP, cmulP]

theorem singleGate_pair_formula_witness :
    applySingleQubitGateE (1e-10) 0 xGate oneQ0 =
        .ok { oneQ0 with amp := singleGateAmp 0 xGate oneQ0.amp } ∧
    ∀ i x y, i.testBit 0 = false → oneQ0.amp i = some x →
      oneQ0.amp (i ^^^ (1 <<< 0)) = some y →
      singleGateAmp 0 xGate oneQ0.amp i =
        some (caddP (cmulP xGate.u00 x) (cmulP xGate.u01 y)) ∧
      singleGateAmp 0 xGate oneQ0.amp (i ^^^ (1 <<< 0)) =
        some (caddP (cmulP xGate.u10 x) (cmulP xGate.u11 y)) := by
  have hv : normSquared { oneQ0 with amp := singleGateAmp 0 xGate oneQ0.amp } =
      some 1 := by
    rw [normSquared_one_qubit _ rfl]
    show jsAdd (jsAdd (some 0) (magSq (singleGateAmp 0 xGate oneQ0.amp 0)))
        (magSq (singleGateAmp 0 xGate oneQ0.amp 1)) = some 1
    rw [xGate_amp0, xGate_amp1]
    norm_num [magSq, jsAdd]
  refine singleGate_pair_formula (1e-10) 0 xGate oneQ0 (by decide) 1 hv ?_
  rw [Real.sqrt_one]
  norm_num

/-- Twice the identity: a well-shaped 2×2 matrix argument that is not unitary. -/
def twoEye : Mat2 := ⟨(2, 0), (0, 0), (0, 0), (2, 0)⟩

theorem twoEye_amp0 : singleGateAmp 0 twoEye oneQ0.amp 0 = some (2, 0) := by
  unfold singleGateAmp
  norm_num [oneQ0, twoEye, cadd, cmul, caddP, cmulP]

theorem twoEye_amp1 : singleGateAmp 0 twoEye oneQ0.amp 1 = some (0, 0) := by
  unfold singleGateAmp
  norm_num [oneQ0, twoEye, cadd, cmul, caddP, cmulP]

/-- Claim C1: refuted as stated, at the 2×2 matrix 2·I on the one-qubit state
|0⟩.  The claim predicts amplitude U00·a₀ + U01·a₁ = 2 at index 0; the kernel's
trailing normalize step fires (the transformed norm is 2) and divides every
amplitude by the plain number 2, so index 0 actually holds a NaN amplitude. -/
theorem singleGate_claim_counterexample :
    (applySingleQubitGateE (1e-10) 0 twoEye oneQ0).map (fun r => r.amp 0) =
        .ok none ∧
    cadd (cmul (some twoEye.u00) (oneQ0.amp 0))
        (cmul (some twoEye.u01) (oneQ0.amp 1)) = some (2, 0) ∧
    (Except.ok (some ((2 : ℝ), (0 : ℝ))) : Except String Cx) ≠ .ok none := by
  refine ⟨?_, ?_, by simp⟩
  · have hns : normSquared { oneQ0 with amp := singleGateAmp 0 twoEye oneQ0.amp } =
        some 4 := by
      rw [normSquared_one_qubit _ rfl]
      show jsAdd (jsAdd (some 0) (magSq (singleGateAmp 0 twoEye oneQ0.amp 0)))
          (magSq (singleGateAmp 0 twoEye oneQ0.amp 1)) = some 4
      rw [twoEye_amp0, twoEye_amp1]
      norm_num [magSq, jsAdd]
    have hsqrt : Real.sqrt 4 = 2 := by
      rw [show (4 : ℝ) = 2 ^ 2 by norm_num, Real.sqrt_sq (by norm_num : (0 : ℝ) ≤ 2)]
    have hj : jsSqrt (normSquared
        { oneQ0 with amp := singleGateAmp 0 twoEye oneQ0.amp }) = some 2 := by
      rw [hns]
      simp only [jsSqrt]
      rw [if_neg (by norm_num : ¬ (4 : ℝ) < 0), hsqrt]
    have hnz := svNormalize_all_nan (1e-10)
      { oneQ0 with amp := singleGateAmp 0 twoEye oneQ0.amp } 2 hj
      (by norm_num : (1e-10 : ℝ) < |2 - 1|)
    unfold applySingleQubitGateE
    rw [if_pos (by decide : 0 < oneQ0.n), hnz]
    rfl
  · norm_num [oneQ0, twoEye, cadd, cmul, caddP, cmulP]

theorem forall2_nil (ps : List Int) (h : List.Forall₂ pkOk [] ps) : ps = [] := by
  cases h
  rfl

theorem forall2_byte1 (ps : List Int) (h : List.Forall₂ pkOk [PKind.byte] ps) :
    ∃ q, ps = [q] ∧ 0 ≤ q ∧ q < 256 := by
  cases h with
  | cons h1 h2 =>
      cases h2
      exact ⟨_, rfl, h1.1, h1.2⟩

theorem forall2_byte2 (ps : List Int)
    (h : List.Forall₂ pkOk [PKind.byte, PKind.byte] ps) :
    ∃ q r, ps = [q, r] ∧ 0 ≤ q ∧ q < 256 ∧ 0 ≤ r ∧ r < 256 := by
  cases h with
  | cons h1 h2 =>
      cases h2 with
      | cons h3 h4 =>
          cases h4
          exact ⟨_, _, rfl, h1.1, h1.2, h3.1, h3.2⟩

theorem forall2_byte3 (ps : List Int)
    (h : List.Forall₂ pkOk [PKind.byte, PKind.byte, PKind.byte] ps) :
    ∃ q r w, ps = [q, r, w] ∧ 0 ≤ q ∧ q < 256 ∧ 0 ≤ r ∧ r < 256 ∧
      0 ≤ w ∧ w < 256 := by
  cases h with
  | cons h1 h2 =>
      cases h2 with
      | cons h3 h4 =>
          cases h4 with
          | cons h5 h6 =>
              cases h6
              exact ⟨_, _, _, rfl, h1.1, h1.2, h3.1, h3.2, h5.1, h5.2⟩

theorem forall2_angle (ps : List Int)
    (h : List.Forall₂ pkOk [PKind.byte, PKind.angle] ps) :
    ∃ q a, ps = [q, a] ∧ 0 ≤ q ∧ q < 256 ∧ 0 ≤ a ∧ a < 2 ^ 32 := by
  cases h with
  | cons h1 h2 =>
      cases h2 with
      | cons h3 h4 =>
          cases h4
          exact ⟨_, _, rfl, h1.1, h1.2, h3.1, h3.2⟩

theorem forall2_cjmp (ps : List Int)
    (h : List.Forall₂ pkOk [PKind.byte, PKind.u32] ps) :
    ∃ q a, ps = [q, a] ∧ 0 ≤ q ∧ q < 256 ∧ 0 ≤ a ∧ a < 2 ^ 32 := by
  cases h with
  | cons h1 h2 =>
      cases h2 with
      | cons h3 h4 =>
          cases h4
          exact ⟨_, _, rfl, h1.1, h1.2, h3.1, h3.2⟩

theorem forall2_jmp (ps : List Int) (h : List.Forall₂ pkOk [PKind.u32] ps) :
    ∃ a, ps = [a] ∧ 0 ≤ a ∧ a < 2 ^ 32 := by
  cases h with
  | cons h1 h2 =>
      cases h2
      exact ⟨_, rfl, h1.1, h1.2⟩

theorem forall2_store (ps : List Int)
    (h : List.Forall₂ pkOk [PKind.byte, PKind.i32] ps) :
    ∃ q a, ps = [q, a] ∧ 0 ≤ q ∧ q < 256 ∧ -(2 ^ 31) ≤ a ∧ a < 2 ^ 31 := by
  cases h with
  | cons h1 h2 =>
      cases h2 with
      | cons h3 h4 =>
          cases h4
          exact ⟨_, _, rfl, h1.1, h1.2, h3.1, h3.2⟩

theorem toByte_int (q : Int) (h0 : 0 ≤ q) (h1 : q < 256) :
    ((toByte q : ℕ) : Int) = q := by
  unfold toByte
  omega

theorem u32_round (v : Int) (h0 : 0 ≤ v) (h1 : v < 2 ^ 32) :
    ((readU32 (v.toNat % 256) (v.toNat / 256 % 256) (v.toNat / 65536 % 256)
      (v.toNat / 16777216 % 256) : ℕ) : Int) = v := by
  unfold readU32
  omega

theorem f32_round (v : Int) (h0 : 0 ≤ v) (h1 : v < 2 ^ 32) :
    readF32 ((v % 2 ^ 32).toNat % 256) ((v % 2 ^ 32).toNat / 256 % 256)
      ((v % 2 ^ 32).toNat / 65536 % 256) ((v % 2 ^ 32).toNat / 16777216 % 256) =
      v := by
  unfold readF32 readU32
  omega

theorem i32_round (v : Int) (h0 : -(2 ^ 31) ≤ v) (h1 : v < 2 ^ 31) :
    readI32 ((v % 2 ^ 32).toNat % 256) ((v % 2 ^ 32).toNat / 256 % 256)
      ((v % 2 ^ 32).toNat / 65536 % 256) ((v % 2 ^ 32).toNat / 16777216 % 256) =
      v := by
  have hu : readU32 ((v % 2 ^ 32).toNat % 256) ((v % 2 ^ 32).toNat / 256 % 256)
      ((v % 2 ^ 32).toNat / 65536 % 256) ((v % 2 ^ 32).toNat / 16777216 % 256) =
      (v % 2 ^ 32).toNat := by
    unfold readU32
    omega
  unfold readI32
  rw [hu]
  dsimp only
  split <;> omega

/-- Claim C5: decode is a left inverse of encode for every instruction whose
opcode is listed in the QBC table and whose parameters fit the table's operand
sizes (rotation angles modelled by their 32-bit patterns), and a byte outside
the table is rejected by both encodeInstruction and decodeInstruction. -/
theorem qbc_codec_roundtrip :
    (∀ ins : Instr, validInstr ins →
      ∃ bs, encodeInstruction ins = .ok bs ∧
        decodeInstruction bs 0 = .ok (ins, bs.length)) ∧
    (∀ b ps rest, b < 256 → b ∉ qbcOpcodeValues →
      encodeInstruction ⟨b, ps⟩ = .error "Invalid opcode" ∧
      decodeInstruction (b :: rest) 0 = .error "Unknown opcode") := by
  constructor
  · rintro ⟨op, ps⟩ hvalid
    have hop : op ∈ qbcOpcodeValues := by
      by_contra hn
      simp [qbcOpcodeValues] at hn
      unfold validInstr opParamKinds at hvalid
      dsimp only at hvalid
      iterate 12 rw [if_neg (by omega)] at hvalid
      exact hvalid
    simp only [qbcOpcodeValues, List.mem_cons, List.not_mem_nil, or_false] at hop
    rcases hop with rfl | rfl | rfl | rfl | rfl | rfl | rfl | rfl | rfl | rfl | rfl | rfl | rfl | rfl | rfl | rfl | rfl | rfl | rfl | rfl | rfl | rfl | rfl | rfl | rfl | rfl | rfl | rfl | rfl | rfl | rfl | rfl | rfl | rfl | rfl | rfl | rfl
    all_goals unfold validInstr opParamKinds at hvalid
    all_goals norm_num at hvalid
    all_goals first
    | (subst hvalid
       exact ⟨_, rfl, rfl⟩)
    | (obtain ⟨q, rfl, hq0, hq1⟩ := forall2_byte1 ps hvalid
       refine ⟨_, rfl, ?_⟩
       conv_rhs => rw [← toByte_int q hq0 hq1]
       rfl)
    | (obtain ⟨q, r, rfl, hq0, hq1, hr0, hr1⟩ := forall2_byte2 ps hvalid
       refine ⟨_, rfl, ?_⟩
       conv_rhs => rw [← toByte_int q hq0 hq1, ← toByte_int r hr0 hr1]
       rfl)
    | (obtain ⟨q, r, w, rfl, hq0, hq1, hr0, hr1, hw0, hw1⟩ :=
         forall2_byte3 ps hvalid
       refine ⟨_, rfl, ?_⟩
       conv_rhs => rw [← toByte_int q hq0 hq1, ← toByte_int r hr0 hr1,
         ← toByte_int w hw0 hw1]
       rfl)
    | (obtain ⟨q, a, rfl, hq0, hq1, ha0, ha1⟩ := forall2_angle ps hvalid
       refine ⟨_, rfl, ?_⟩
       conv_rhs => rw [← toByte_int q hq0 hq1, ← f32_round a ha0 ha1]
       rfl)
    | (obtain ⟨q, a, rfl, hq0, hq1, ha0, ha1⟩ := forall2_cjmp ps hvalid
       have hw : writeU32 a = .ok (u32Bytes a.toNat) := by
         unfold writeU32
         rw [if_pos ⟨ha0, ha1⟩]
       refine ⟨[96, toByte q] ++ u32Bytes a.toNat, ?_, ?_⟩
       · rw [show encodeInstruction ⟨96, [q, a]⟩ =
           (writeU32 a).map (fun bs => [96, toByte q] ++ bs) from rfl, hw]
         rfl
       · conv_rhs => rw [← toByte_int q hq0 hq1, ← u32_round a ha0 ha1]
         rfl)
    | (obtain ⟨a, rfl, ha0, ha1⟩ := forall2_jmp ps hvalid
       have hw : writeU32 a = .ok (u32Bytes a.toNat) := by
         unfold writeU32
         rw [if_pos ⟨ha0, ha1⟩]
       refine ⟨97 :: u32Bytes a.toNat, ?_, ?_⟩
       · rw [show encodeInstruction ⟨97, [a]⟩ =
           (writeU32 a).map (fun bs => 97 :: bs) from rfl, hw]
         rfl
       · conv_rhs => rw [← u32_round a ha0 ha1]
         rfl)
    | (obtain ⟨q, a, rfl, hq0, hq1, ha0, ha1⟩ := forall2_store ps hvalid
       have hw : writeI32 a = .ok (u32Bytes ((a % 2 ^ 32).toNat)) := by
         unfold writeI32
         rw [if_pos ⟨ha0, ha1⟩]
       refine ⟨[112, toByte q] ++ u32Bytes ((a % 2 ^ 32).toNat), ?_, ?_⟩
       · rw [show encodeInstruction ⟨112, [q, a]⟩ =
           (writeI32 a).map (fun bs => [112, toByte q] ++ bs) from rfl, hw]
         rfl
       · conv_rhs => rw [← toByte_int q hq0 hq1, ← i32_round a ha0 ha1]
         rfl)
  · rintro b ps rest hb256 hbn
    constructor
    · simp [encodeInstruction, hbn]
    · interval_cases b <;>
        first
          | rfl
          | exact absurd (by decide) hbn

theorem qbc_codec_roundtrip_witness :
    validInstr ⟨0x20, [5, 1078530011]⟩ ∧
    (∃ bs, encodeInstruction ⟨0x20, [5, 1078530011]⟩ = .ok bs ∧
      decodeInstruction bs 0 = .ok (⟨0x20, [5, 1078530011]⟩, bs.length)) ∧
    (3 ∉ qbcOpcodeValues) ∧
    encodeInstruction ⟨3, []⟩ = .error "Invalid opcode" ∧
    decodeInstruction [3] 0 = .error "Unknown opcode" := by
  have hval : validInstr ⟨0x20, [5, 1078530011]⟩ := by
    unfold validInstr opParamKinds
    norm_num [pkOk]
  exact ⟨hval, qbc_codec_roundtrip.1 _ hval, by decide,
    (qbc_codec_roundtrip.2 3 [] [] (by norm_num) (by decide)).1,
    (qbc_codec_roundtrip.2 3 [] [] (by norm_num) (by decide)).2⟩

/-- A fresh VM with no qubits and the default capacity. -/
def vm0 : VmState :=
  { qubits := [],
    nextQubitIndex := 0,
    maxQubits := 32,
    groups := [],
    sv := ⟨0, 32, fun i => if i = 0 then some (1, 0) else some (0, 0)⟩,
    results := [],
    history := [],
    totalMeasurements := 0,
    count0 := 0,
    count1 := 0 }

/-- The VM after reset and one allocation. -/
def vmA : VmState := (allocateQubit "q0" vm0).2

/-- Claim C8: refuted on the code.  After reset and a single allocation,
measureAllQubits measures the one live handle but then iterates over the pairs
produced by entries(), whose first component is the array position, not the
handle: the position is looked up in the handle-keyed measurement map, the
lookup misses, and .toString() on the undefined result throws, so no bit string
is ever returned (with two or more handles the sort comparator already throws
looking up positions in the registry). -/
theorem measureAllQubits_crashes :
    (engMeasureAllQubits (fun _ => 1 / 2) vmA).1 =
      .error "TypeError: Cannot read properties of undefined" ∧
    vmA.qubits.length = 1 := ⟨rfl, rfl⟩
